import Mathlib

/-!
The status protocol client and the collector of fafgeardexporter.

A shallow embedding of `main.go`.  The TCP connection is a scripted peer: every
call of `Write` and `Read` consumes the next scripted outcome, so a statement
quantified over all scripts covers every behaviour the socket can show.  Go
strings are byte sequences, a byte is a `Fin 256`, a Go `int` is an `Int`, a
`float64` converted from an `int` is the integer it denotes, and a runtime fault of
the Go program (index out of range, negative `make`) is the result `none`.
-/

namespace FafGeard

/-- One byte of a Go string or byte slice. -/
abbrev Byte := Fin 256

/-- A Go `string`: its sequence of bytes. -/
abbrev GoString := List Byte

/-! ## The connection -/

/-- What one call of `conn.Write` reports: the count it returns and whether it
returns a non-nil error. -/
structure WriteOutcome where
  n : Nat
  err : Bool
  deriving DecidableEq, Repr

/-- What one call of `conn.Read` reports: the bytes the peer delivers to this call
and whether the call returns a non-nil error. -/
structure ReadOutcome where
  data : List Byte
  err : Bool
  deriving DecidableEq, Repr

/-- A `net.Conn` with its scripted future (`writes`, `reads`), the byte slices handed
to `Write` so far, oldest first (`sent`), and whether `Close` has been called. -/
structure Conn where
  writes : List WriteOutcome
  reads : List ReadOutcome
  sent : List (List Byte)
  closed : Bool
  deriving DecidableEq, Repr

/-- A fresh connection as `net.Dial` returns it, with the given script. -/
def Conn.fresh (writes : List WriteOutcome) (reads : List ReadOutcome) : Conn :=
  { writes := writes, reads := reads, sent := [], closed := false }

/-- The call `conn.Write(bytes)`: the slice is logged, the next scripted outcome is
consumed; the count is at most `len(bytes)`.  An exhausted script is an error. -/
def Conn.Write (conn : Conn) (bytes : List Byte) : Conn × Nat × Bool :=
  match conn.writes with
  | [] => ({ conn with sent := conn.sent ++ [bytes] }, 0, true)
  | w :: ws =>
    ({ conn with writes := ws, sent := conn.sent ++ [bytes] }, min w.n bytes.length, w.err)

/-- The call `conn.Read(readbuf)` on a zero-filled buffer of `length` bytes: the
buffer afterwards, the count and the error flag.  A read into a buffer of length 0
returns `(0, nil)` at once, as the TCP connection of `net.Dial("tcp", ...)` does, and
consumes nothing.  Otherwise the next scripted outcome is consumed and at most `length`
of the delivered bytes are stored; an exhausted script is an error (end of stream). -/
def Conn.Read (conn : Conn) (length : Nat) : Conn × List Byte × Nat × Bool :=
  if length = 0 then (conn, [], 0, false)
  else
    match conn.reads with
    | [] => (conn, List.replicate length 0, 0, true)
    | r :: rs =>
      let got := r.data.take length
      ({ conn with reads := rs }, got ++ List.replicate (length - got.length) 0, got.length,
        r.err)

/-- The call `conn.Close()`. -/
def Conn.Close (conn : Conn) : Conn :=
  { conn with closed := true }

/-! ## `encoding/binary` on a `bytes.Buffer` -/

/-- The call `binary.Write(buf, binary.LittleEndian, v)` for an `int8`: one byte, the
two's complement of `v`, is appended; writing to a `bytes.Buffer` returns no error. -/
def binaryWriteInt8 (buf : List Byte) (v : Int) : List Byte × Bool :=
  (buf ++ [Fin.ofNat (v % 256).toNat], false)

/-- The call `binary.Write(buf, binary.LittleEndian, v)` for an `int32`: the four bytes
of the two's complement of `v`, least significant first. -/
def binaryWriteInt32 (buf : List Byte) (v : Int) : List Byte × Bool :=
  let u := (v % 4294967296).toNat
  (buf ++ [Fin.ofNat (u % 256), Fin.ofNat (u / 256 % 256), Fin.ofNat (u / 65536 % 256),
    Fin.ofNat (u / 16777216 % 256)], false)

/-- The conversion `int8(b)` of a byte. -/
def int8OfByte (b : Byte) : Int :=
  if b.val < 128 then (b.val : Int) else (b.val : Int) - 256

/-! ## The protocol client -/

/-- Go `socketSend`. -/
def socketSend (conn : Conn) (bytes : List Byte) : Conn × Bool :=
  match conn.Write bytes with
  | (conn, write, err) =>
    if err then (conn, false)
    else if 0 = write then (conn, false)
    else (conn, true)

/-- Go `socketRead`.  `make([]byte, length)` faults for a negative `length`: the
result is then `none`.  The string returned is the whole buffer, `readbuf[:]`. -/
def socketRead (conn : Conn) (length : Int) : Conn × Option (Bool × GoString) :=
  if length < 0 then (conn, none)
  else
    match conn.Read length.toNat with
    | (conn, readbuf, read, err) =>
      if err then (conn, some (false, []))
      else
        let readstr := readbuf
        if (read : Int) ≠ length then (conn, some (false, readstr))
        else (conn, some (true, readstr))

/-- Go `sendProtocol`. -/
def sendProtocol (conn : Conn) (protocol : Int) : Conn × Option Bool :=
  match binaryWriteInt8 [] protocol with
  | (buf, err) =>
    if err then (conn, some false)
    else
      match socketSend conn buf with
      | (conn, true) =>
        (match socketRead conn 1 with
        | (conn, none) => (conn, none)
        | (conn, some (suc, _)) =>
          if suc then (conn, some true) else (conn, some false))
      | (conn, false) => (conn, some false)

/-- Go `sendStatusRequest`.  `str[0]` faults on an empty string. -/
def sendStatusRequest (conn : Conn) : Conn × Option (Bool × Int) :=
  let packettype : Int := 1
  let datalen : Int := 0
  match binaryWriteInt8 [] packettype with
  | (buf, err) =>
    if err then (conn, some (false, 0))
    else
      match binaryWriteInt32 buf datalen with
      | (buf, err) =>
        if err then (conn, some (false, 0))
        else
          match socketSend conn buf with
          | (conn, true) =>
            (match socketRead conn 1 with
            | (conn, none) => (conn, none)
            | (conn, some (suc, str)) =>
              if suc then
                match str.head? with
                | none => (conn, none)
                | some b => (conn, some (true, int8OfByte b))
              else (conn, some (false, 0)))
          | (conn, false) => (conn, some (false, 0))

/-- Go `readStatusCsv`. -/
def readStatusCsv (conn : Conn) (len : Int) : Conn × Option (Bool × GoString) :=
  match socketRead conn len with
  | (conn, none) => (conn, none)
  | (conn, some (suc, str)) =>
    if suc then (conn, some (true, str)) else (conn, some (false, str))

/-- Go `getStatus`.  `dial` is what `net.Dial("tcp", address)` returns: `none` for an
error, else the connection.  The result carries the connection as the call leaves it
(`none` when none was opened) and the returned pair, `none` for a runtime fault.  Both
returns after `conn.Close()` give the same pair, whatever error `Close` reports. -/
def getStatus (dial : Option Conn) : Option Conn × Option (Bool × GoString) :=
  match dial with
  | none => (none, some (false, []))
  | some conn =>
    let protocol : Int := 1
    match sendProtocol conn protocol with
    | (conn, none) => (some conn, none)
    | (conn, some false) => (some conn, some (false, []))
    | (conn, some true) =>
      match sendStatusRequest conn with
      | (conn, none) => (some conn, none)
      | (conn, some (false, _)) => (some conn, some (false, []))
      | (conn, some (true, statuslen)) =>
        match readStatusCsv conn statuslen with
        | (conn, none) => (some conn, none)
        | (conn, some (suc, statuscsv)) =>
          let conn := conn.Close
          (some conn, some (suc, statuscsv))

/-! ## `strings.Split` -/

/-- Go `strings.IndexByte(s, sep)`: the index of the first `sep` in `s`, `none` for the
Go result `-1`. -/
def indexByte (sep : Byte) : GoString → Option Nat
  | [] => none
  | c :: cs => if c = sep then some 0 else (indexByte sep cs).map (· + 1)

/-- Go `strings.Count(s, sep)` for a one-byte separator. -/
def countByte (sep : Byte) (s : GoString) : Nat :=
  s.count sep

/-- The loop of `strings.genSplit` for a one-byte separator: at most `n` cuts, each at
the first separator of what is left; the remainder is the last element. -/
def genSplitLoop (sep : Byte) : Nat → GoString → List GoString
  | 0, s => [s]
  | n + 1, s =>
    match indexByte sep s with
    | none => [s]
    | some m => s.take m :: genSplitLoop sep n (s.drop (m + 1))

/-- Go `strings.Split(s, sep)` for a one-byte separator: `Count(s, sep) + 1` substrings. -/
def stringsSplit (s : GoString) (sep : Byte) : List GoString :=
  genSplitLoop sep (countByte sep s) s

/-! ## `strconv.Atoi` -/

/-- The `Err` of a `*strconv.NumError`. -/
inductive NumError where
  | ErrSyntax
  | ErrRange
  deriving DecidableEq, Repr

/-- Go `strconv.lower`: `c | ('x' - 'X')`. -/
def lower (c : Byte) : Byte :=
  c ||| 32

/-- The loop of `strconv.ParseUint(s, 10, bitSize)` over the bytes still to read, with
the accumulator `n` a `uint64`, `cutoff = maxUint64/10 + 1` and
`maxVal = 1<<bitSize - 1`. -/
def parseUintLoop (maxVal : Nat) : List Byte → Nat → Nat × Option NumError
  | [], n => (n, none)
  | c :: rest, n =>
    let step := fun (d : Nat) =>
      if d ≥ 10 then (0, some NumError.ErrSyntax)
      else if n ≥ 18446744073709551615 / 10 + 1 then (maxVal, some NumError.ErrRange)
      else
        let n10 := n * 10 % 18446744073709551616
        let n1 := (n10 + d) % 18446744073709551616
        if n1 < n10 ∨ n1 > maxVal then (maxVal, some NumError.ErrRange)
        else parseUintLoop maxVal rest n1
    if 48 ≤ c.val ∧ c.val ≤ 57 then step (c.val - 48)
    else if 97 ≤ (lower c).val ∧ (lower c).val ≤ 122 then step ((lower c).val - 97 + 10)
    else (0, some NumError.ErrSyntax)

/-- Go `strconv.ParseUint(s, 10, bitSize)` with `bitSize` already resolved to the
platform's `IntSize`. -/
def ParseUint (intSize : Nat) (s : GoString) : Nat × Option NumError :=
  if s = [] then (0, some NumError.ErrSyntax)
  else parseUintLoop (2 ^ intSize - 1) s 0

/-- Go `strconv.ParseInt(s, 10, 0)`: on a range error the value is the nearest bound. -/
def ParseInt (intSize : Nat) (s : GoString) : Int × Option NumError :=
  match s with
  | [] => (0, some NumError.ErrSyntax)
  | c :: rest =>
    let (neg, s) :=
      if c = 43 then (false, rest) else if c = 45 then (true, rest) else (false, c :: rest)
    match ParseUint intSize s with
    | (un, err) =>
      if err ≠ none ∧ err ≠ some NumError.ErrRange then (0, err)
      else
        let cutoff : Nat := 2 ^ (intSize - 1)
        if neg = false ∧ un ≥ cutoff then ((cutoff : Int) - 1, some NumError.ErrRange)
        else if neg = true ∧ un > cutoff then (-(cutoff : Int), some NumError.ErrRange)
        else
          let n : Int := un
          if neg then (-n, none) else (n, none)

/-- The loop of the fast path of `strconv.Atoi`: `ch -= '0'` is byte arithmetic.  The
path is taken for fewer than 19 (10) bytes only, where `n*10 + int(ch)` cannot leave
the range of `int`. -/
def atoiFastLoop : List Byte → Int → Option Int
  | [], n => some n
  | ch :: rest, n =>
    let ch : Byte := ch - 48
    if ch > 9 then none
    else atoiFastLoop rest (n * 10 + (ch.val : Int))

/-- Go `strconv.Atoi(s)` on a platform whose `int` has `intSize` bits: the value and
the error returned. -/
def Atoi (intSize : Nat) (s : GoString) : Int × Option NumError :=
  let sLen := s.length
  if (intSize = 32 ∧ (0 < sLen ∧ sLen < 10)) ∨ (intSize = 64 ∧ (0 < sLen ∧ sLen < 19)) then
    match s with
    | [] => (0, some NumError.ErrSyntax)
    | c :: rest =>
      let s1 := if c = 45 ∨ c = 43 then rest else c :: rest
      if (c = 45 ∨ c = 43) ∧ s1.length < 1 then (0, some NumError.ErrSyntax)
      else
        match atoiFastLoop s1 0 with
        | none => (0, some NumError.ErrSyntax)
        | some n => if c = 45 then (-n, none) else (n, none)
  else ParseInt intSize s

/-! ## The exporter -/

/-- A `*prometheus.Desc` as far as this program sets it: the fully qualified name and
the help text (no labels). -/
structure Desc where
  fqName : String
  help : String
  deriving DecidableEq, Repr

/-- Go `prometheus.BuildFQName`. -/
def BuildFQName (ns subsystem name : String) : String :=
  if name = "" then ""
  else if ns ≠ "" ∧ subsystem ≠ "" then ns ++ "_" ++ subsystem ++ "_" ++ name
  else if ns ≠ "" then ns ++ "_" ++ name
  else if subsystem ≠ "" then subsystem ++ "_" ++ name
  else name

/-- Go constant `namespace`. -/
def «namespace» : String := "fafgearclient"

def metric_up : Desc :=
  ⟨BuildFQName «namespace» "" "fafgeard_up", "Was the last status request successful."⟩

def metric_query_queue_size : Desc :=
  ⟨BuildFQName «namespace» "server" "query_queue_size",
    "How many queries are waiting to be processed."⟩

def metric_database_connections_max : Desc :=
  ⟨BuildFQName «namespace» "server" "database_connections_max",
    "How many database connections are allowed in total."⟩

def metric_database_connections_active : Desc :=
  ⟨BuildFQName «namespace» "server" "database_connections_active",
    "How many database connections are active at the moment."⟩

def metric_threadpool_input_count : Desc :=
  ⟨BuildFQName «namespace» "server" "threadpool_input_count", "threadpool_input_count."⟩

def metric_threadpool_input_running : Desc :=
  ⟨BuildFQName «namespace» "server" "threadpool_input_running", "threadpool_input_running."⟩

def metric_threadpool_input_queued : Desc :=
  ⟨BuildFQName «namespace» "server" "threadpool_input_queued", "threadpool_input_queued."⟩

def metric_threadpool_input_total : Desc :=
  ⟨BuildFQName «namespace» "server" "threadpool_input_total", "threadpool_input_total."⟩

def metric_threadpool_database_count : Desc :=
  ⟨BuildFQName «namespace» "server" "threadpool_database_count", "threadpool_database_count."⟩

def metric_threadpool_database_running : Desc :=
  ⟨BuildFQName «namespace» "server" "threadpool_database_running",
    "threadpool_database_running."⟩

def metric_threadpool_database_queued : Desc :=
  ⟨BuildFQName «namespace» "server" "threadpool_database_queued",
    "threadpool_database_queued."⟩

def metric_threadpool_database_total : Desc :=
  ⟨BuildFQName «namespace» "server" "threadpool_database_total", "threadpool_database_total."⟩

/-- The number of halvings that bring `a` below `2 ^ 53`, at most `fuel` of them: for
`a < 2 ^ (53 + fuel)` the bit length of `a` less 53, or 0 when `a` has at most 53 bits. -/
def float64Shift : Nat → Nat → Nat
  | 0, _ => 0
  | fuel + 1, a => if a < 9007199254740992 then 0 else float64Shift fuel (a / 2) + 1

/-- The `float64` nearest to the natural number `a < 2 ^ 64`, as the number it denotes:
`a` rounded to 53 significant bits, a tie going to the even significand (IEEE 754
round to nearest even, the rounding of a Go conversion).  The result is an integer. -/
def float64OfNat (a : Nat) : Nat :=
  let sh := float64Shift 11 a
  let q := a / 2 ^ sh
  let rem := a % 2 ^ sh
  if 2 * rem > 2 ^ sh ∨ (2 * rem = 2 ^ sh ∧ q % 2 = 1) then (q + 1) * 2 ^ sh else q * 2 ^ sh

/-- The Go conversion `float64(v)` of an `int` of at most 64 bits, as the number the
resulting `float64` denotes (always an integer). -/
def float64OfInt (v : Int) : Int :=
  if v < 0 then -(float64OfNat v.natAbs : Int) else (float64OfNat v.natAbs : Int)

/-- A gauge sample sent on the channel by `prometheus.MustNewConstMetric(desc,
prometheus.GaugeValue, value)`: `value` is the number the `float64` argument denotes,
which is an integer for every sample this program sends. -/
structure Metric where
  desc : Desc
  value : Int
  deriving DecidableEq, Repr

/-- One run of `Collect`: the metrics sent on the channel, in order, and whether the
run ended in a runtime fault instead of returning. -/
structure CollectRun where
  sent : List Metric
  faulted : Bool
  deriving DecidableEq, Repr

/-- The statement `v, _ = strconv.Atoi(s[i])`: `none` when `i` is out of range. -/
def atoiAt (intSize : Nat) (s : List GoString) (i : Nat) : Option Int :=
  match s[i]? with
  | none => none
  | some f => some (Atoi intSize f).1

/-- The eleven assignments of `Collect` from the split payload, in source order; `none`
as soon as an index is out of range. -/
def decodeFields (intSize : Nat) (s : List GoString) : Option (List Int) := do
  let i := 0
  let value_query_queue_size ← atoiAt intSize s i
  let i := i + 1
  let value_database_connections_max ← atoiAt intSize s i
  let i := i + 1
  let value_database_connections_active ← atoiAt intSize s i
  let i := i + 1
  let value_threadpool_input_count ← atoiAt intSize s i
  let i := i + 1
  let value_threadpool_input_running ← atoiAt intSize s i
  let i := i + 1
  let value_threadpool_input_queued ← atoiAt intSize s i
  let i := i + 1
  let value_threadpool_input_total ← atoiAt intSize s i
  let i := i + 1
  let value_threadpool_database_count ← atoiAt intSize s i
  let i := i + 1
  let value_threadpool_database_running ← atoiAt intSize s i
  let i := i + 1
  let value_threadpool_database_queued ← atoiAt intSize s i
  let i := i + 1
  let value_threadpool_database_total ← atoiAt intSize s i
  pure [value_query_queue_size, value_database_connections_max,
    value_database_connections_active, value_threadpool_input_count,
    value_threadpool_input_running, value_threadpool_input_queued,
    value_threadpool_input_total, value_threadpool_database_count,
    value_threadpool_database_running, value_threadpool_database_queued,
    value_threadpool_database_total]

/-- The descriptors of the eleven gauges, in the order `Collect` sends them. -/
def gaugeDescs : List Desc :=
  [metric_query_queue_size, metric_database_connections_max,
    metric_database_connections_active, metric_threadpool_input_count,
    metric_threadpool_input_running, metric_threadpool_input_queued,
    metric_threadpool_input_total, metric_threadpool_database_count,
    metric_threadpool_database_running, metric_threadpool_database_queued,
    metric_threadpool_database_total]

/-- The eleven closing sends of `Collect`: one gauge per variable, in the fixed order,
each with the value `float64(value_...)`. -/
def gaugeMetrics (values : List Int) : List Metric :=
  List.zipWith Metric.mk gaugeDescs (values.map float64OfInt)

/-- Go `Exporter.Collect` after `getStatus` has returned `(suc, csv)`. -/
def collectFrom (intSize : Nat) (suc : Bool) (csv : GoString) : CollectRun :=
  if suc then
    let s := stringsSplit csv 59
    match decodeFields intSize s with
    | none => { sent := [⟨metric_up, 1⟩], faulted := true }
    | some values => { sent := ⟨metric_up, 1⟩ :: gaugeMetrics values, faulted := false }
  else
    { sent := ⟨metric_up, 0⟩ :: gaugeMetrics (List.replicate 11 0), faulted := false }

/-- Go `Exporter.Collect`: `dial` is what `net.Dial` returns for `*gearAddress`. -/
def Exporter.Collect (intSize : Nat) (dial : Option Conn) : CollectRun :=
  match (getStatus dial).2 with
  | none => { sent := [], faulted := true }
  | some (suc, csv) => collectFrom intSize suc csv

/-- Go `Exporter.Describe`: the descriptors sent on the channel, in order. -/
def Exporter.Describe : List Desc :=
  [metric_query_queue_size, metric_database_connections_max,
    metric_database_connections_active, metric_threadpool_input_count,
    metric_threadpool_input_running, metric_threadpool_input_queued,
    metric_threadpool_input_total, metric_threadpool_database_count,
    metric_threadpool_database_running, metric_threadpool_database_queued,
    metric_threadpool_database_total]

/-! ## Specification side: base-10 signed integers -/

/-- Specification side: `c` is one of the decimal digits `'0'` to `'9'`. -/
def isDigit (c : Byte) : Bool :=
  decide (48 ≤ c.val ∧ c.val ≤ 57)

/-- Specification side: the number a run of decimal digits denotes when it continues
the number `n`. -/
def digitsFrom (n : Nat) : List Byte → Nat
  | [] => n
  | c :: cs => digitsFrom (n * 10 + (c.val - 48)) cs

/-- Specification side: the text starts with the sign `'-'`. -/
def isNegative (s : GoString) : Bool :=
  decide (s.head? = some 45)

/-- Specification side: the text without its optional leading sign `'+'` or `'-'`. -/
def signBody : GoString → GoString
  | [] => []
  | c :: rest => if c = 43 ∨ c = 45 then rest else c :: rest

/-- Specification side: the integer a base-10 signed integer text denotes (an optional
sign, then one or more decimal digits), `none` for any other text. -/
def decimalValue (s : GoString) : Option Int :=
  if signBody s ≠ [] ∧ (signBody s).all isDigit = true then
    some (if isNegative s then -(digitsFrom 0 (signBody s) : Int) else (digitsFrom 0 (signBody s) : Int))
  else none

/-- Specification side: `v` is in the range of an `int` of `intSize` bits. -/
def inIntRange (intSize : Nat) (v : Int) : Prop :=
  -(2 ^ (intSize - 1) : Int) ≤ v ∧ v ≤ (2 ^ (intSize - 1) : Int) - 1

instance (intSize : Nat) (v : Int) : Decidable (inIntRange intSize v) :=
  inferInstanceAs (Decidable (_ ∧ _))

/-- Specification side: the text is a base-10 signed integer in the range of an `int` of
`intSize` bits. -/
def isIntText (intSize : Nat) (p : GoString) : Bool :=
  match decimalValue p with
  | some v => decide (inIntRange intSize v)
  | none => false

/-- The value of the gauge at position `k` (0 to 10) of a run: the metric sent after
the `up` metric and `k` further gauges. -/
def gaugeAt (run : CollectRun) (k : Nat) : Option Int :=
  run.sent[k + 1]?.map Metric.value

/-- The bytes of an ASCII text, for writing payloads readably. -/
def ascii (s : String) : GoString :=
  s.toList.map (fun c => Fin.ofNat c.toNat)

/-- A peer that accepts the connection and both writes, acknowledges the handshake
with the byte 7, answers the status request with the length byte `len` and delivers
`payload` to the payload read. -/
def servingPeer (len : Byte) (payload : GoString) : Option Conn :=
  some (Conn.fresh [⟨1, false⟩, ⟨5, false⟩] [⟨[7], false⟩, ⟨[len], false⟩, ⟨payload, false⟩])

end FafGeard


namespace FafGeard

/-! ## `strconv.Atoi` against the specification -/

theorem byte_sub_48_val (c : Byte) : (c - 48 : Byte).val = (c.val + 208) % 256 := by
  rw [Fin.sub_def]; simp; omega

theorem byte_sub_48_gt (c : Byte) : ((c - 48 : Byte) > 9) ↔ isDigit c = false := by
  rw [gt_iff_lt, Fin.lt_def, byte_sub_48_val]; simp [isDigit]; omega

theorem isDigit_iff (c : Byte) : isDigit c = true ↔ 48 ≤ c.val ∧ c.val ≤ 57 := by
  simp [isDigit]

theorem digitsFrom_nil (n : Nat) : digitsFrom n [] = n := rfl

theorem digitsFrom_cons (n : Nat) (c : Byte) (cs : List Byte) :
    digitsFrom n (c :: cs) = digitsFrom (n * 10 + (c.val - 48)) cs := rfl

theorem digitsFrom_ge (ds : List Byte) : ∀ n, n ≤ digitsFrom n ds := by
  induction ds with
  | nil => intro n; exact Nat.le_refl _
  | cons c cs ih =>
    intro n
    have := ih (n * 10 + (c.val - 48))
    rw [digitsFrom_cons]
    omega

theorem digitsFrom_lt (ds : List Byte) (hd : ∀ c ∈ ds, isDigit c = true) :
    ∀ n, digitsFrom n ds < (n + 1) * 10 ^ ds.length := by
  induction ds with
  | nil => intro n; rw [digitsFrom_nil]; simp
  | cons c cs ih =>
    intro n
    have hc := (isDigit_iff c).1 (hd c (List.mem_cons_self _ _))
    have h1 := ih (fun x hx => hd x (List.mem_cons_of_mem _ hx)) (n * 10 + (c.val - 48))
    have h2 : (n * 10 + (c.val - 48) + 1) * 10 ^ cs.length ≤ ((n + 1) * 10) * 10 ^ cs.length :=
      Nat.mul_le_mul_right _ (by omega)
    rw [digitsFrom_cons, List.length_cons, pow_succ]
    calc digitsFrom (n * 10 + (c.val - 48)) cs
        < (n * 10 + (c.val - 48) + 1) * 10 ^ cs.length := h1
      _ ≤ ((n + 1) * 10) * 10 ^ cs.length := h2
      _ = (n + 1) * (10 ^ cs.length * 10) := by ring

theorem parseUintLoop_nondigit (maxVal : Nat) (c : Byte) (rest : List Byte) (n : Nat)
    (hc : isDigit c = false) :
    parseUintLoop maxVal (c :: rest) n = (0, some NumError.ErrSyntax) := by
  have h : ¬ (48 ≤ c.val ∧ c.val ≤ 57) := by
    intro h; rw [(isDigit_iff c).2 h] at hc; exact Bool.noConfusion hc
  simp only [parseUintLoop, if_neg h]
  split
  · rw [if_pos (by omega)]
  · rfl

theorem parseUintLoop_digits (maxVal : Nat) (hmax : maxVal < 18446744073709551616)
    (ds tail : List Byte) (hd : ∀ c ∈ ds, isDigit c = true) :
    ∀ n, n ≤ maxVal →
      parseUintLoop maxVal (ds ++ tail) n =
        if digitsFrom n ds ≤ maxVal then parseUintLoop maxVal tail (digitsFrom n ds)
        else (maxVal, some NumError.ErrRange) := by
  induction ds with
  | nil => intro n hn; rw [digitsFrom_nil, if_pos hn]; rfl
  | cons c cs ih =>
    intro n hn
    have hc := (isDigit_iff c).1 (hd c (List.mem_cons_self _ _))
    have ih1 := ih (fun x hx => hd x (List.mem_cons_of_mem _ hx))
    have hge := digitsFrom_ge cs (n * 10 + (c.val - 48))
    rw [digitsFrom_cons]
    simp only [List.cons_append, parseUintLoop, if_pos hc]
    rw [if_neg (by omega)]
    by_cases h1 : n ≥ 18446744073709551615 / 10 + 1
    · rw [if_pos h1, if_neg (by omega)]
    · rw [if_neg h1]
      have e10 : n * 10 % 18446744073709551616 = n * 10 := Nat.mod_eq_of_lt (by omega)
      rw [e10]
      by_cases h2 : n * 10 + (c.val - 48) < 18446744073709551616
      · have e1 : (n * 10 + (c.val - 48)) % 18446744073709551616 = n * 10 + (c.val - 48) :=
          Nat.mod_eq_of_lt h2
        rw [e1]
        by_cases h3 : n * 10 + (c.val - 48) > maxVal
        · rw [if_pos (Or.inr h3), if_neg (by omega)]
        · rw [if_neg (by omega)]
          exact ih1 _ (by omega)
      · rw [if_pos (Or.inl (by omega)), if_neg (by omega)]

theorem parseUintLoop_spec (maxVal : Nat) (hmax : maxVal < 18446744073709551616)
    (s : List Byte) :
    parseUintLoop maxVal s 0 =
      if digitsFrom 0 (s.takeWhile isDigit) ≤ maxVal then
        (if s.takeWhile isDigit = s then (digitsFrom 0 (s.takeWhile isDigit), none)
         else (0, some NumError.ErrSyntax))
      else (maxVal, some NumError.ErrRange) := by
  have hsplit : s.takeWhile isDigit ++ s.dropWhile isDigit = s := List.takeWhile_append_dropWhile _ _
  have hrun : ∀ c ∈ s.takeWhile isDigit, isDigit c = true := fun c hc => List.mem_takeWhile_imp hc
  have h := parseUintLoop_digits maxVal hmax (s.takeWhile isDigit) (s.dropWhile isDigit) hrun 0
    (Nat.zero_le _)
  rw [hsplit] at h
  rw [h]
  by_cases hu : digitsFrom 0 (s.takeWhile isDigit) ≤ maxVal
  · rw [if_pos hu, if_pos hu]
    cases htail : s.dropWhile isDigit with
    | nil =>
      rw [htail, List.append_nil] at hsplit
      rw [if_pos hsplit]; rfl
    | cons c rest =>
      have hc : isDigit c = false := by
        have := List.head_dropWhile_not isDigit s (by rw [htail]; exact List.cons_ne_nil _ _)
        simpa [htail] using this
      have hne : ¬ s.takeWhile isDigit = s := by
        intro he
        rw [he] at hsplit
        have := List.append_right_eq_self.1 hsplit
        rw [htail] at this
        exact List.cons_ne_nil _ _ this
      rw [if_neg hne]
      exact parseUintLoop_nondigit maxVal c rest _ hc
  · rw [if_neg hu, if_neg hu]

theorem atoiFastLoop_digits (ds : List Byte) (hd : ∀ c ∈ ds, isDigit c = true) :
    ∀ n : Nat, atoiFastLoop ds (n : Int) = some ((digitsFrom n ds : Nat) : Int) := by
  induction ds with
  | nil => intro n; rfl
  | cons c cs ih =>
    intro n
    have hc := hd c (List.mem_cons_self _ _)
    have hc1 := (isDigit_iff c).1 hc
    have hgt : ¬ ((c - 48 : Byte) > 9) := by
      rw [byte_sub_48_gt, hc]; exact Bool.noConfusion
    have hv : (c - 48 : Byte).val = c.val - 48 := by
      rw [byte_sub_48_val]; omega
    have ih1 := ih (fun x hx => hd x (List.mem_cons_of_mem _ hx)) (n * 10 + (c.val - 48))
    rw [digitsFrom_cons, ← ih1]
    simp only [atoiFastLoop, if_neg hgt, hv, Nat.cast_add, Nat.cast_mul, Nat.cast_ofNat]

theorem atoiFastLoop_nondigit (ds : List Byte) (hd : ds.all isDigit = false) :
    ∀ n : Int, atoiFastLoop ds n = none := by
  induction ds with
  | nil => simp at hd
  | cons c cs ih =>
    intro n
    cases hc : isDigit c with
    | false =>
      have hgt : (c - 48 : Byte) > 9 := (byte_sub_48_gt c).2 hc
      simp only [atoiFastLoop, if_pos hgt]
    | true =>
      have hgt : ¬ ((c - 48 : Byte) > 9) := by
        rw [byte_sub_48_gt, hc]; exact Bool.noConfusion
      have hrest : cs.all isDigit = false := by
        simpa [List.all_cons, hc] using hd
      simp only [atoiFastLoop, if_neg hgt]
      exact ih hrest _

theorem ParseUint_digits (intSize : Nat) (hsize : intSize ≤ 64) (b : List Byte)
    (hne : b ≠ []) (hd : b.all isDigit = true) :
    ParseUint intSize b =
      if digitsFrom 0 b ≤ 2 ^ intSize - 1 then (digitsFrom 0 b, none)
      else (2 ^ intSize - 1, some NumError.ErrRange) := by
  have hmax : 2 ^ intSize - 1 < 18446744073709551616 := by
    have h1 : 2 ^ intSize ≤ 2 ^ 64 := Nat.pow_le_pow_right (by decide) hsize
    have h2 : 0 < 2 ^ intSize := Nat.pow_pos (by decide)
    have h3 : (2 : Nat) ^ 64 = 18446744073709551616 := by norm_num
    omega
  have htw : b.takeWhile isDigit = b := by
    rw [List.takeWhile_eq_self_iff]
    intro x hx
    exact (List.all_eq_true.1 hd) x hx
  unfold ParseUint
  rw [if_neg hne, parseUintLoop_spec _ hmax, htw, if_pos rfl]

theorem ParseInt_cons (intSize : Nat) (c : Byte) (rest : List Byte) :
    ParseInt intSize (c :: rest) =
      if (ParseUint intSize (signBody (c :: rest))).2 ≠ none ∧
          (ParseUint intSize (signBody (c :: rest))).2 ≠ some NumError.ErrRange then
        (0, (ParseUint intSize (signBody (c :: rest))).2)
      else if isNegative (c :: rest) = false ∧
          (ParseUint intSize (signBody (c :: rest))).1 ≥ 2 ^ (intSize - 1) then
        (((2 ^ (intSize - 1) : Nat) : Int) - 1, some NumError.ErrRange)
      else if isNegative (c :: rest) = true ∧
          (ParseUint intSize (signBody (c :: rest))).1 > 2 ^ (intSize - 1) then
        (-((2 ^ (intSize - 1) : Nat) : Int), some NumError.ErrRange)
      else if isNegative (c :: rest) = true then
        (-((ParseUint intSize (signBody (c :: rest))).1 : Int), none)
      else (((ParseUint intSize (signBody (c :: rest))).1 : Int), none) := by
  by_cases h43 : c = 43
  · subst h43
    have hsb : signBody ((43 : Byte) :: rest) = rest := by simp [signBody]
    have hng : isNegative ((43 : Byte) :: rest) = false := rfl
    rw [hsb, hng]
    simp only [ParseInt, if_pos]
  · by_cases h45 : c = 45
    · subst h45
      have hsb : signBody ((45 : Byte) :: rest) = rest := by simp [signBody]
      have hng : isNegative ((45 : Byte) :: rest) = true := rfl
      rw [hsb, hng]
      simp only [ParseInt, if_neg h43, if_pos]
    · have hsb : signBody (c :: rest) = c :: rest := by simp [signBody, h43, h45]
      have hng : isNegative (c :: rest) = false := by simp [isNegative, h45]
      rw [hsb, hng]
      simp only [ParseInt, if_neg h43, if_neg h45]

theorem ParseInt_decimal (intSize : Nat) (hsize : intSize = 32 ∨ intSize = 64) (s : GoString)
    (v : Int) (hv : decimalValue s = some v) :
    ParseInt intSize s =
      if inIntRange intSize v then (v, none)
      else if 0 < v then ((2 ^ (intSize - 1) : Int) - 1, some NumError.ErrRange)
      else (-(2 ^ (intSize - 1) : Int), some NumError.ErrRange) := by
  cases s with
  | nil => simp [decimalValue, signBody] at hv
  | cons c rest =>
    unfold decimalValue at hv
    split at hv
    next hb =>
      obtain ⟨hne, hd⟩ := hb
      have hv1 := Option.some.inj hv
      have hpu := ParseUint_digits intSize (by omega) _ hne hd
      rw [ParseInt_cons, hpu]
      subst hv1
      generalize digitsFrom 0 (signBody (c :: rest)) = u
      generalize isNegative (c :: rest) = neg
      rcases hsize with rfl | rfl
      · cases neg <;> by_cases hu : u ≤ 2 ^ 32 - 1 <;>
          simp only [hu, if_true, if_false, inIntRange] <;>
          norm_num <;> norm_num at hu <;>
          split_ifs <;> first | rfl | omega
      · cases neg <;> by_cases hu : u ≤ 2 ^ 64 - 1 <;>
          simp only [hu, if_true, if_false, inIntRange] <;>
          norm_num <;> norm_num at hu <;>
          split_ifs <;> first | rfl | omega
    next => exact Option.noConfusion hv

theorem ParseInt_not_decimal (intSize : Nat) (hsize : intSize ≤ 64) (s : GoString)
    (hv : decimalValue s = none)
    (hrun : digitsFrom 0 ((signBody s).takeWhile isDigit) ≤ 2 ^ intSize - 1) :
    ParseInt intSize s = (0, some NumError.ErrSyntax) := by
  cases s with
  | nil => rfl
  | cons c rest =>
    have hmax : 2 ^ intSize - 1 < 18446744073709551616 := by
      have h1 : 2 ^ intSize ≤ 2 ^ 64 := Nat.pow_le_pow_right (by decide) hsize
      have h2 : 0 < 2 ^ intSize := Nat.pow_pos (by decide)
      have h3 : (2 : Nat) ^ 64 = 18446744073709551616 := by norm_num
      omega
    have hpu : ParseUint intSize (signBody (c :: rest)) = (0, some NumError.ErrSyntax) := by
      unfold ParseUint
      by_cases hne : signBody (c :: rest) = []
      · rw [if_pos hne]
      · rw [if_neg hne, parseUintLoop_spec _ hmax, if_pos hrun]
        have hnot : ¬ (signBody (c :: rest)).takeWhile isDigit = signBody (c :: rest) := by
          intro he
          rw [List.takeWhile_eq_self_iff] at he
          have hall : (signBody (c :: rest)).all isDigit = true := List.all_eq_true.2 he
          unfold decimalValue at hv
          rw [if_pos ⟨hne, hall⟩] at hv
          exact Option.noConfusion hv
        rw [if_neg hnot]
    rw [ParseInt_cons, hpu]
    rfl

theorem Atoi_slow (intSize : Nat) (s : GoString)
    (h : ¬ ((intSize = 32 ∧ (0 < s.length ∧ s.length < 10)) ∨
      (intSize = 64 ∧ (0 < s.length ∧ s.length < 19)))) :
    Atoi intSize s = ParseInt intSize s := by
  unfold Atoi
  simp only [if_neg h]

theorem Atoi_fast (intSize : Nat) (c : Byte) (rest : List Byte)
    (h : (intSize = 32 ∧ (0 < (c :: rest).length ∧ (c :: rest).length < 10)) ∨
      (intSize = 64 ∧ (0 < (c :: rest).length ∧ (c :: rest).length < 19))) :
    Atoi intSize (c :: rest) =
      if signBody (c :: rest) = [] then (0, some NumError.ErrSyntax)
      else
        match atoiFastLoop (signBody (c :: rest)) 0 with
        | none => (0, some NumError.ErrSyntax)
        | some n => if isNegative (c :: rest) = true then (-n, none) else (n, none) := by
  unfold Atoi
  simp only [if_pos h]
  by_cases h43 : c = 43
  · subst h43
    have hsb : signBody ((43 : Byte) :: rest) = rest := by simp [signBody]
    have hng : isNegative ((43 : Byte) :: rest) = false := rfl
    rw [hsb, hng]
    cases rest with
    | nil => simp
    | cons d ds => simp
  · by_cases h45 : c = 45
    · subst h45
      have hsb : signBody ((45 : Byte) :: rest) = rest := by simp [signBody]
      have hng : isNegative ((45 : Byte) :: rest) = true := rfl
      rw [hsb, hng]
      cases rest with
      | nil => simp
      | cons d ds => simp
    · have hsb : signBody (c :: rest) = c :: rest := by simp [signBody, h43, h45]
      have hng : isNegative (c :: rest) = false := by simp [isNegative, h45]
      rw [hsb, hng]
      simp [h43, h45]

theorem signBody_length_le (s : GoString) : (signBody s).length ≤ s.length := by
  cases s with
  | nil => exact Nat.le_refl _
  | cons c rest =>
    by_cases h : c = 43 ∨ c = 45
    · simp [signBody, h]
    · simp [signBody, h]

/-- On a base-10 signed integer text `strconv.Atoi` returns its value without error when
the value is in the range of `int`, and the nearest bound of the range with `ErrRange`
otherwise. -/
theorem Atoi_decimal (intSize : Nat) (hsize : intSize = 32 ∨ intSize = 64) (s : GoString)
    (v : Int) (hv : decimalValue s = some v) :
    Atoi intSize s =
      if inIntRange intSize v then (v, none)
      else if 0 < v then ((2 ^ (intSize - 1) : Int) - 1, some NumError.ErrRange)
      else (-(2 ^ (intSize - 1) : Int), some NumError.ErrRange) := by
  by_cases hf : (intSize = 32 ∧ (0 < s.length ∧ s.length < 10)) ∨
      (intSize = 64 ∧ (0 < s.length ∧ s.length < 19))
  · cases s with
    | nil => simp [decimalValue, signBody] at hv
    | cons c rest =>
      rw [Atoi_fast _ _ _ hf]
      unfold decimalValue at hv
      split at hv
      next hb =>
        obtain ⟨hne, hd⟩ := hb
        have hv1 := Option.some.inj hv
        have hd1 : ∀ x ∈ signBody (c :: rest), isDigit x = true := List.all_eq_true.1 hd
        have hfast := atoiFastLoop_digits _ hd1 0
        rw [Nat.cast_zero] at hfast
        have hlt := digitsFrom_lt _ hd1 0
        have hlen := signBody_length_le (c :: rest)
        rw [if_neg hne, hfast]
        subst hv1
        have hrange : inIntRange intSize
            (if isNegative (c :: rest) = true then -(digitsFrom 0 (signBody (c :: rest)) : Int)
              else (digitsFrom 0 (signBody (c :: rest)) : Int)) := by
          unfold inIntRange
          rcases hf with ⟨rfl, _, h2⟩ | ⟨rfl, _, h2⟩
          · have hp : 10 ^ (signBody (c :: rest)).length ≤ 10 ^ 9 :=
              Nat.pow_le_pow_right (by decide) (by omega)
            norm_num at hp hlt ⊢
            split_ifs <;> omega
          · have hp : 10 ^ (signBody (c :: rest)).length ≤ 10 ^ 18 :=
              Nat.pow_le_pow_right (by decide) (by omega)
            norm_num at hp hlt ⊢
            split_ifs <;> omega
        rw [if_pos hrange]
        cases isNegative (c :: rest) <;> simp
      next => exact Option.noConfusion hv
  · rw [Atoi_slow _ _ hf]
    exact ParseInt_decimal intSize hsize s v hv

/-- On a text that is no base-10 signed integer `strconv.Atoi` returns 0 with `ErrSyntax`,
provided the digits that follow the optional sign, up to the first other byte, do not
exceed `2 ^ intSize - 1`. -/
theorem Atoi_not_decimal (intSize : Nat) (hsize : intSize = 32 ∨ intSize = 64) (s : GoString)
    (hv : decimalValue s = none)
    (hrun : digitsFrom 0 ((signBody s).takeWhile isDigit) ≤ 2 ^ intSize - 1) :
    Atoi intSize s = (0, some NumError.ErrSyntax) := by
  by_cases hf : (intSize = 32 ∧ (0 < s.length ∧ s.length < 10)) ∨
      (intSize = 64 ∧ (0 < s.length ∧ s.length < 19))
  · cases s with
    | nil => simp at hf
    | cons c rest =>
      rw [Atoi_fast _ _ _ hf]
      by_cases hne : signBody (c :: rest) = []
      · rw [if_pos hne]
      · rw [if_neg hne]
        have hall : (signBody (c :: rest)).all isDigit = false := by
          cases h : (signBody (c :: rest)).all isDigit with
          | false => rfl
          | true =>
            unfold decimalValue at hv
            rw [if_pos ⟨hne, h⟩] at hv
            exact Option.noConfusion hv
        rw [atoiFastLoop_nondigit _ hall]
  · rw [Atoi_slow _ _ hf]
    exact ParseInt_not_decimal intSize (by omega) s hv hrun

/-! ## `strings.Split` against `List.splitOn` -/

theorem indexByte_eq_none (sep : Byte) (s : GoString) (h : indexByte sep s = none) :
    ∀ x ∈ s, ¬ (x == sep) = true := by
  induction s with
  | nil => intro x hx; cases hx
  | cons c cs ih =>
    unfold indexByte at h
    by_cases hc : c = sep
    · rw [if_pos hc] at h; exact Option.noConfusion h
    · rw [if_neg hc] at h
      have hcs : indexByte sep cs = none := by
        cases hi : indexByte sep cs with
        | none => rfl
        | some m => rw [hi] at h; exact Option.noConfusion h
      intro x hx
      rcases List.mem_cons.1 hx with rfl | hx
      · simpa using hc
      · exact ih hcs x hx

theorem indexByte_eq_some (sep : Byte) (s : GoString) :
    ∀ m, indexByte sep s = some m →
      s = s.take m ++ sep :: s.drop (m + 1) ∧ ∀ x ∈ s.take m, ¬ (x == sep) = true := by
  induction s with
  | nil => intro m h; exact Option.noConfusion h
  | cons c cs ih =>
    intro m h
    unfold indexByte at h
    by_cases hc : c = sep
    · rw [if_pos hc] at h
      have hm : m = 0 := (Option.some.inj h).symm
      subst hm
      subst hc
      exact ⟨rfl, fun x hx => by cases hx⟩
    · rw [if_neg hc] at h
      cases hi : indexByte sep cs with
      | none => rw [hi] at h; exact Option.noConfusion h
      | some k =>
        rw [hi] at h
        have hm : m = k + 1 := (Option.some.inj h).symm
        subst hm
        obtain ⟨h1, h2⟩ := ih k hi
        refine ⟨?_, ?_⟩
        · simp only [List.take_succ_cons, List.drop_succ_cons, List.cons_append]
          rw [← h1]
        · intro x hx
          simp only [List.take_succ_cons] at hx
          rcases List.mem_cons.1 hx with rfl | hx
          · simpa using hc
          · exact h2 x hx

theorem genSplitLoop_eq_splitOn (sep : Byte) :
    ∀ (n : Nat) (s : GoString), countByte sep s ≤ n → genSplitLoop sep n s = s.splitOn sep := by
  intro n
  induction n with
  | zero =>
    intro s h
    have hnot : ∀ x ∈ s, ¬ (x == sep) = true := by
      intro x hx hxs
      have hx2 : x = sep := by simpa using hxs
      subst hx2
      have : 0 < countByte x s := List.count_pos_iff.2 hx
      omega
    unfold genSplitLoop
    exact (List.splitOnP_eq_single _ _ hnot).symm
  | succ n ih =>
    intro s h
    unfold genSplitLoop
    cases hi : indexByte sep s with
    | none =>
      exact (List.splitOnP_eq_single _ _ (indexByte_eq_none sep s hi)).symm
    | some m =>
      obtain ⟨h1, h2⟩ := indexByte_eq_some sep s m hi
      have hcount : countByte sep (s.drop (m + 1)) ≤ n := by
        have hc : countByte sep s =
            countByte sep (s.take m) + (countByte sep (s.drop (m + 1)) + 1) := by
          conv_lhs => rw [h1]
          simp [countByte, List.count_append]
        omega
      simp only []
      rw [ih _ hcount]
      conv_rhs => rw [h1]
      exact (List.splitOnP_first _ _ h2 sep (by simp) _).symm

/-- The model of `strings.Split` for a one-byte separator is `List.splitOn`. -/
theorem stringsSplit_eq_splitOn (s : GoString) (sep : Byte) :
    stringsSplit s sep = s.splitOn sep :=
  genSplitLoop_eq_splitOn sep _ s (Nat.le_refl _)

/-! ## The collector -/

theorem decodeFields_of_length_ge (intSize : Nat) :
    ∀ s : List GoString, 11 ≤ s.length →
      decodeFields intSize s = some ((s.take 11).map (fun f => (Atoi intSize f).1))
  | _ :: _ :: _ :: _ :: _ :: _ :: _ :: _ :: _ :: _ :: _ :: _, _ => by
    simp [decodeFields, atoiAt]
  | [], h => absurd h (by simp)
  | [_], h => absurd h (by simp only [List.length_cons, List.length_nil]; omega)
  | [_, _], h => absurd h (by simp only [List.length_cons, List.length_nil]; omega)
  | [_, _, _], h => absurd h (by simp only [List.length_cons, List.length_nil]; omega)
  | [_, _, _, _], h => absurd h (by simp only [List.length_cons, List.length_nil]; omega)
  | [_, _, _, _, _], h => absurd h (by simp only [List.length_cons, List.length_nil]; omega)
  | [_, _, _, _, _, _], h => absurd h (by simp only [List.length_cons, List.length_nil]; omega)
  | [_, _, _, _, _, _, _], h => absurd h (by simp only [List.length_cons, List.length_nil]; omega)
  | [_, _, _, _, _, _, _, _], h => absurd h (by simp only [List.length_cons, List.length_nil]; omega)
  | [_, _, _, _, _, _, _, _, _], h => absurd h (by simp only [List.length_cons, List.length_nil]; omega)
  | [_, _, _, _, _, _, _, _, _, _], h => absurd h (by simp only [List.length_cons, List.length_nil]; omega)

theorem decodeFields_of_length_lt (intSize : Nat) :
    ∀ s : List GoString, s.length < 11 → decodeFields intSize s = none
  | _ :: _ :: _ :: _ :: _ :: _ :: _ :: _ :: _ :: _ :: _ :: _, h =>
    absurd h (by simp only [List.length_cons]; omega)
  | [], _ => by simp [decodeFields, atoiAt]
  | [_], _ => by simp [decodeFields, atoiAt]
  | [_, _], _ => by simp [decodeFields, atoiAt]
  | [_, _, _], _ => by simp [decodeFields, atoiAt]
  | [_, _, _, _], _ => by simp [decodeFields, atoiAt]
  | [_, _, _, _, _], _ => by simp [decodeFields, atoiAt]
  | [_, _, _, _, _, _], _ => by simp [decodeFields, atoiAt]
  | [_, _, _, _, _, _, _], _ => by simp [decodeFields, atoiAt]
  | [_, _, _, _, _, _, _, _], _ => by simp [decodeFields, atoiAt]
  | [_, _, _, _, _, _, _, _, _], _ => by simp [decodeFields, atoiAt]
  | [_, _, _, _, _, _, _, _, _, _], _ => by simp [decodeFields, atoiAt]

theorem Collect_of_status (intSize : Nat) (dial : Option Conn) (suc : Bool) (csv : GoString)
    (h : (getStatus dial).2 = some (suc, csv)) :
    Exporter.Collect intSize dial = collectFrom intSize suc csv := by
  unfold Exporter.Collect
  rw [h]

theorem collectFrom_of_length_ge (intSize : Nat) (csv : GoString)
    (h : 11 ≤ (stringsSplit csv 59).length) :
    collectFrom intSize true csv =
      { sent := ⟨metric_up, 1⟩ ::
          gaugeMetrics (((stringsSplit csv 59).take 11).map (fun f => (Atoi intSize f).1)),
        faulted := false } := by
  unfold collectFrom
  simp only [if_true, decodeFields_of_length_ge intSize _ h]

theorem float64OfNat_small (a : Nat) (h : a < 9007199254740992) : float64OfNat a = a := by
  have hsh : float64Shift 11 a = 0 := by
    unfold float64Shift
    rw [if_pos h]
  unfold float64OfNat
  simp [hsh, Nat.mod_one]

/-- The conversion `float64(v)` is exact for every integer of magnitude at most `2 ^ 53`. -/
theorem float64OfInt_exact (v : Int) (h1 : -9007199254740992 ≤ v) (h2 : v ≤ 9007199254740992) :
    float64OfInt v = v := by
  by_cases hs : v.natAbs < 9007199254740992
  · unfold float64OfInt
    rw [float64OfNat_small _ hs]
    split_ifs <;> omega
  · have hv : v = 9007199254740992 ∨ v = -9007199254740992 := by omega
    rcases hv with rfl | rfl <;> decide

/-- The conversion at a few values above `2 ^ 53`: rounding down, a tie to the even
significand in both directions, rounding up to a power of two, and an exact value. -/
theorem float64OfInt_examples :
    float64OfInt 9007199254740993 = 9007199254740992 ∧
      float64OfInt 9007199254740995 = 9007199254740996 ∧
      float64OfInt 9007199254740994 = 9007199254740994 ∧
      float64OfInt 1234567890123456789 = 1234567890123456768 ∧
      float64OfInt 9223372036854775807 = 9223372036854775808 ∧
      float64OfInt (-9223372036854775808) = -9223372036854775808 := by
  decide

theorem gaugeAt_of_success (f : GoString → Int) :
    ∀ parts : List GoString, 11 ≤ parts.length → ∀ j, j < 11 →
      gaugeAt { sent := ⟨metric_up, 1⟩ :: gaugeMetrics ((parts.take 11).map f),
                faulted := false } j = parts[j]?.map (fun p => float64OfInt (f p))
  | a0 :: a1 :: a2 :: a3 :: a4 :: a5 :: a6 :: a7 :: a8 :: a9 :: a10 :: rest, _, j, hj => by
    interval_cases j <;> simp [gaugeAt, gaugeMetrics, gaugeDescs]
  | [], h, _, _ => absurd h (by simp)
  | [_], h, _, _ => absurd h (by simp only [List.length_cons, List.length_nil]; omega)
  | [_, _], h, _, _ => absurd h (by simp only [List.length_cons, List.length_nil]; omega)
  | [_, _, _], h, _, _ => absurd h (by simp only [List.length_cons, List.length_nil]; omega)
  | [_, _, _, _], h, _, _ => absurd h (by simp only [List.length_cons, List.length_nil]; omega)
  | [_, _, _, _, _], h, _, _ =>
    absurd h (by simp only [List.length_cons, List.length_nil]; omega)
  | [_, _, _, _, _, _], h, _, _ =>
    absurd h (by simp only [List.length_cons, List.length_nil]; omega)
  | [_, _, _, _, _, _, _], h, _, _ =>
    absurd h (by simp only [List.length_cons, List.length_nil]; omega)
  | [_, _, _, _, _, _, _, _], h, _, _ =>
    absurd h (by simp only [List.length_cons, List.length_nil]; omega)
  | [_, _, _, _, _, _, _, _, _], h, _, _ =>
    absurd h (by simp only [List.length_cons, List.length_nil]; omega)
  | [_, _, _, _, _, _, _, _, _, _], h, _, _ =>
    absurd h (by simp only [List.length_cons, List.length_nil]; omega)

/-! ## The claims about `Collect` -/

/-- C1, as the code behaves: after a successful fetch whose payload splits on `;` into
fewer than 11 parts, `Collect` does not complete: it sends `up = 1` and then faults on
the first index that is out of range, sending no gauge at all. -/
theorem Collect_faults_on_short_payload (intSize : Nat) (dial : Option Conn) (csv : GoString)
    (hok : (getStatus dial).2 = some (true, csv))
    (hlen : (stringsSplit csv 59).length < 11) :
    Exporter.Collect intSize dial = { sent := [⟨metric_up, 1⟩], faulted := true } := by
  rw [Collect_of_status intSize dial true csv hok]
  unfold collectFrom
  simp only [if_true, decodeFields_of_length_lt intSize _ hlen]

/-- C1 at the payload `1;2` announced by the length byte 3, and at the empty payload
announced by the length byte 0. -/
theorem Collect_faults_on_short_payload_witness :
    Exporter.Collect 64 (servingPeer 3 (ascii "1;2")) =
        { sent := [⟨metric_up, 1⟩], faulted := true } ∧
      Exporter.Collect 64 (servingPeer 0 []) =
        { sent := [⟨metric_up, 1⟩], faulted := true } :=
  ⟨Collect_faults_on_short_payload 64 (servingPeer 3 (ascii "1;2")) (ascii "1;2")
      (by decide) (by decide),
    Collect_faults_on_short_payload 64 (servingPeer 0 []) [] (by decide) (by decide)⟩

/-- C2 as stated fails: the payload `9007199254740993;10;2;0;0;0;0;0;0;0;0` is fetched
successfully and its eleven parts are base-10 integers in the range of a 64-bit `int`,
yet the gauge at position 0 is `float64(9007199254740993)`, which is 9007199254740992,
and not the value of part 0. -/
theorem Collect_gauge_rounds_large_value :
    (getStatus (servingPeer 37 (ascii "9007199254740993;10;2;0;0;0;0;0;0;0;0"))).2 =
        some (true, ascii "9007199254740993;10;2;0;0;0;0;0;0;0;0") ∧
      (∀ p ∈ (stringsSplit (ascii "9007199254740993;10;2;0;0;0;0;0;0;0;0") 59).take 11,
        isIntText 64 p = true) ∧
      (stringsSplit (ascii "9007199254740993;10;2;0;0;0;0;0;0;0;0") 59)[0]? =
        some (ascii "9007199254740993") ∧
      decimalValue (ascii "9007199254740993") = some 9007199254740993 ∧
      gaugeAt (Exporter.Collect 64
        (servingPeer 37 (ascii "9007199254740993;10;2;0;0;0;0;0;0;0;0"))) 0 =
          some 9007199254740992 ∧
      gaugeAt (Exporter.Collect 64
        (servingPeer 37 (ascii "9007199254740993;10;2;0;0;0;0;0;0;0;0"))) 0 ≠
          some 9007199254740993 := by
  decide

/-- C2, amended: after a successful fetch whose payload splits on `;` into at least 11
parts, the first 11 of them base-10 signed integers in the range of `int`, `Collect`
returns having sent `up = 1` and then the eleven gauges in the fixed order, gauge `k`
carrying `float64` of the value of part `k`; that is the value of part `k` itself
whenever the value lies in `-2 ^ 53 .. 2 ^ 53`.  What is sent depends on the first 11
parts only. -/
theorem Collect_decodes_eleven_fields (intSize : Nat) (hsize : intSize = 32 ∨ intSize = 64)
    (dial : Option Conn) (csv : GoString)
    (hok : (getStatus dial).2 = some (true, csv))
    (hlen : 11 ≤ (stringsSplit csv 59).length)
    (hdec : ∀ p ∈ (stringsSplit csv 59).take 11, isIntText intSize p = true) :
    Exporter.Collect intSize dial =
        { sent := ⟨metric_up, 1⟩ ::
            List.zipWith Metric.mk
              [metric_query_queue_size, metric_database_connections_max,
              metric_database_connections_active, metric_threadpool_input_count,
              metric_threadpool_input_running, metric_threadpool_input_queued,
              metric_threadpool_input_total, metric_threadpool_database_count,
              metric_threadpool_database_running, metric_threadpool_database_queued,
              metric_threadpool_database_total]
              (((stringsSplit csv 59).take 11).map
                (fun p => float64OfInt ((decimalValue p).getD 0))),
          faulted := false } ∧
      ∀ (k : Nat) (p : GoString) (v : Int), k < 11 → (stringsSplit csv 59)[k]? = some p →
        decimalValue p = some v → -9007199254740992 ≤ v → v ≤ 9007199254740992 →
        gaugeAt (Exporter.Collect intSize dial) k = some v := by
  rw [Collect_of_status intSize dial true csv hok, collectFrom_of_length_ge intSize csv hlen]
  have hatoi : ∀ p ∈ (stringsSplit csv 59).take 11,
      (Atoi intSize p).1 = (decimalValue p).getD 0 := by
    intro p hp
    have h := hdec p hp
    unfold isIntText at h
    cases hv : decimalValue p with
    | none => rw [hv] at h; exact Bool.noConfusion h
    | some v =>
      rw [hv] at h
      have hr : inIntRange intSize v := of_decide_eq_true h
      show (Atoi intSize p).1 = (some v).getD 0
      rw [Atoi_decimal intSize hsize p v hv, if_pos hr]
      rfl
  have hmap : ((stringsSplit csv 59).take 11).map (fun f => (Atoi intSize f).1) =
      ((stringsSplit csv 59).take 11).map (fun p => (decimalValue p).getD 0) :=
    List.map_congr_left hatoi
  refine ⟨?_, ?_⟩
  · rw [hmap]
    unfold gaugeMetrics gaugeDescs
    rw [List.map_map]
    rfl
  · intro k p v hk hp hv h1 h2
    have hg := gaugeAt_of_success (fun f => (Atoi intSize f).1) (stringsSplit csv 59) hlen k hk
    rw [hp] at hg
    have hmem : p ∈ (stringsSplit csv 59).take 11 := by
      rw [List.mem_iff_getElem?]
      exact ⟨k, by rw [List.getElem?_take, if_pos hk, hp]⟩
    rw [hg]
    show some (float64OfInt (Atoi intSize p).1) = some v
    rw [hatoi p hmem, hv]
    show some (float64OfInt v) = some v
    rw [float64OfInt_exact v h1 h2]

/-- C2 (amended) at the payload `3;10;2;0;0;0;0;0;0;0;0`: the gauges are 3, 10, 2 and
eight zeros. -/
theorem Collect_decodes_eleven_fields_witness :
    Exporter.Collect 64 (servingPeer 22 (ascii "3;10;2;0;0;0;0;0;0;0;0")) =
      { sent := ⟨metric_up, 1⟩ ::
          List.zipWith Metric.mk
            [metric_query_queue_size, metric_database_connections_max,
              metric_database_connections_active, metric_threadpool_input_count,
              metric_threadpool_input_running, metric_threadpool_input_queued,
              metric_threadpool_input_total, metric_threadpool_database_count,
              metric_threadpool_database_running, metric_threadpool_database_queued,
              metric_threadpool_database_total]
            [3, 10, 2, 0, 0, 0, 0, 0, 0, 0, 0],
        faulted := false } :=
  (Collect_decodes_eleven_fields 64 (Or.inr rfl)
    (servingPeer 22 (ascii "3;10;2;0;0;0;0;0;0;0;0")) (ascii "3;10;2;0;0;0;0;0;0;0;0")
    (by decide) (by decide) (by decide)).1

/-- C4 as stated fails: with the 20-digit part `99999999999999999999` at position 0,
which is a base-10 integer out of the range of `int` and on which `strconv.Atoi` reports
`ErrRange`, the gauge at position 0 is 9223372036854775808 and not 0. -/
theorem Collect_out_of_range_part_not_zero :
    decimalValue (ascii "99999999999999999999") = some 99999999999999999999 ∧
      isIntText 64 (ascii "99999999999999999999") = false ∧
      Atoi 64 (ascii "99999999999999999999") =
        (9223372036854775807, some NumError.ErrRange) ∧
      (getStatus (servingPeer 41 (ascii "99999999999999999999;10;2;0;0;0;0;0;0;0;0"))).2 =
        some (true, ascii "99999999999999999999;10;2;0;0;0;0;0;0;0;0") ∧
      gaugeAt (Exporter.Collect 64
        (servingPeer 41 (ascii "99999999999999999999;10;2;0;0;0;0;0;0;0;0"))) 0 =
          some 9223372036854775808 ∧
      gaugeAt (Exporter.Collect 64
        (servingPeer 41 (ascii "99999999999999999999;10;2;0;0;0;0;0;0;0;0"))) 0 ≠ some 0 := by
  decide

/-- C4, amended: after a successful fetch with at least 11 parts `Collect` returns with
`up = 1`, and the gauge at every position `k` in 0..10 is `float64` of the value
`strconv.Atoi` yields for part `k` alone.  The gauge is 0 when the part is no base-10
signed integer (empty or non-numeric) and the digits after its optional sign, up to the
first other byte, do not exceed `2 ^ intSize - 1`.  It is `float64` of the largest `int`
when the part is a base-10 integer above the range of `int` (2147483647 for 32 bits,
9223372036854775808 for 64 bits), and the smallest `int` when it is one below the
range. -/
theorem Collect_unparsable_part (intSize : Nat) (hsize : intSize = 32 ∨ intSize = 64)
    (dial : Option Conn) (csv : GoString)
    (hok : (getStatus dial).2 = some (true, csv))
    (hlen : 11 ≤ (stringsSplit csv 59).length)
    (k : Nat) (hk : k < 11) (p : GoString) (hp : (stringsSplit csv 59)[k]? = some p) :
    (Exporter.Collect intSize dial).faulted = false ∧
      (Exporter.Collect intSize dial).sent.head? = some ⟨metric_up, 1⟩ ∧
      gaugeAt (Exporter.Collect intSize dial) k = some (float64OfInt (Atoi intSize p).1) ∧
      (decimalValue p = none →
        digitsFrom 0 ((signBody p).takeWhile isDigit) ≤ 2 ^ intSize - 1 →
        gaugeAt (Exporter.Collect intSize dial) k = some 0) ∧
      (∀ v, decimalValue p = some v → (2 ^ (intSize - 1) : Int) - 1 < v →
        gaugeAt (Exporter.Collect intSize dial) k =
            some (float64OfInt ((2 ^ (intSize - 1) : Int) - 1)) ∧
          float64OfInt ((2 ^ (intSize - 1) : Int) - 1) =
            if intSize = 64 then 9223372036854775808 else 2147483647) ∧
      (∀ v, decimalValue p = some v → v < -(2 ^ (intSize - 1) : Int) →
        gaugeAt (Exporter.Collect intSize dial) k = some (-(2 ^ (intSize - 1) : Int))) := by
  rw [Collect_of_status intSize dial true csv hok, collectFrom_of_length_ge intSize csv hlen]
  have hg := gaugeAt_of_success (fun f => (Atoi intSize f).1) (stringsSplit csv 59) hlen k hk
  rw [hp] at hg
  replace hg : gaugeAt
      { sent := ⟨metric_up, 1⟩ ::
          gaugeMetrics (((stringsSplit csv 59).take 11).map (fun f => (Atoi intSize f).1)),
        faulted := false } k = some (float64OfInt (Atoi intSize p).1) := hg
  refine ⟨rfl, rfl, hg, ?_, ?_, ?_⟩
  · intro hv hrun
    rw [hg, Atoi_not_decimal intSize hsize p hv hrun]
    rfl
  · intro v hv hgt
    have hr : ¬ inIntRange intSize v := fun h => absurd h.2 (not_le.2 hgt)
    have hpos : 0 < v := by
      have : (0 : Int) < 2 ^ (intSize - 1) := pow_pos (by decide) _
      omega
    rw [hg, Atoi_decimal intSize hsize p v hv, if_neg hr, if_pos hpos]
    refine ⟨rfl, ?_⟩
    rcases hsize with rfl | rfl <;> decide
  · intro v hv hlt
    have hr : ¬ inIntRange intSize v := fun h => absurd h.1 (not_le.2 hlt)
    have hneg : ¬ 0 < v := by
      have : (0 : Int) < 2 ^ (intSize - 1) := pow_pos (by decide) _
      omega
    rw [hg, Atoi_decimal intSize hsize p v hv, if_neg hr, if_neg hneg]
    have hf : float64OfInt (-(2 ^ (intSize - 1) : Int)) = -(2 ^ (intSize - 1) : Int) := by
      rcases hsize with rfl | rfl <;> decide
    show some (float64OfInt (-(2 ^ (intSize - 1) : Int))) = _
    rw [hf]

/-- C4 (amended) at the payload `x;10;2;0;0;0;0;0;0;0;0`, position 0: the gauge is 0. -/
theorem Collect_unparsable_part_witness :
    gaugeAt (Exporter.Collect 64 (servingPeer 22 (ascii "x;10;2;0;0;0;0;0;0;0;0"))) 0 =
      some 0 :=
  (Collect_unparsable_part 64 (Or.inr rfl)
    (servingPeer 22 (ascii "x;10;2;0;0;0;0;0;0;0;0")) (ascii "x;10;2;0;0;0;0;0;0;0;0")
    (by decide) (by decide) 0 (by decide) (ascii "x") (by decide)).2.2.2.1
    (by decide) (by decide)

/-- C5: whenever `getStatus` returns `ok = false`, whatever string comes with it,
`Collect` returns having sent `up = 0` and the eleven gauges, all 0. -/
theorem Collect_of_failed_fetch (intSize : Nat) (dial : Option Conn) (csv : GoString)
    (hfail : (getStatus dial).2 = some (false, csv)) :
    Exporter.Collect intSize dial =
      { sent := [⟨metric_up, 0⟩, ⟨metric_query_queue_size, 0⟩,
          ⟨metric_database_connections_max, 0⟩, ⟨metric_database_connections_active, 0⟩,
          ⟨metric_threadpool_input_count, 0⟩, ⟨metric_threadpool_input_running, 0⟩,
          ⟨metric_threadpool_input_queued, 0⟩, ⟨metric_threadpool_input_total, 0⟩,
          ⟨metric_threadpool_database_count, 0⟩, ⟨metric_threadpool_database_running, 0⟩,
          ⟨metric_threadpool_database_queued, 0⟩, ⟨metric_threadpool_database_total, 0⟩],
        faulted := false } := by
  rw [Collect_of_status intSize dial false csv hfail]
  rfl

/-- C5 at a connect error. -/
theorem Collect_of_failed_fetch_witness :
    Exporter.Collect 64 none =
      { sent := [⟨metric_up, 0⟩, ⟨metric_query_queue_size, 0⟩,
          ⟨metric_database_connections_max, 0⟩, ⟨metric_database_connections_active, 0⟩,
          ⟨metric_threadpool_input_count, 0⟩, ⟨metric_threadpool_input_running, 0⟩,
          ⟨metric_threadpool_input_queued, 0⟩, ⟨metric_threadpool_input_total, 0⟩,
          ⟨metric_threadpool_database_count, 0⟩, ⟨metric_threadpool_database_running, 0⟩,
          ⟨metric_threadpool_database_queued, 0⟩, ⟨metric_threadpool_database_total, 0⟩],
        faulted := false } :=
  Collect_of_failed_fetch 64 none [] rfl

/-- C10, as the code behaves: `Describe` sends the descriptors of the eleven gauges but
not `metric_up`, which every run of `Collect` that reaches its first send uses. -/
theorem Describe_omits_metric_up :
    metric_up ∉ Exporter.Describe ∧
      (∀ d ∈ gaugeDescs, d ∈ Exporter.Describe) ∧
      metric_up ∈ (Exporter.Collect 64 none).sent.map Metric.desc ∧
      metric_up ∈ (Exporter.Collect 64
        (servingPeer 22 (ascii "3;10;2;0;0;0;0;0;0;0;0"))).sent.map Metric.desc := by
  decide

/-! ## The protocol client -/

theorem socketSend_conn (conn : Conn) (bytes : List Byte) :
    (socketSend conn bytes).1 = (conn.Write bytes).1 := by
  unfold socketSend
  rcases conn.Write bytes with ⟨c, n, e⟩
  simp only []
  split_ifs <;> rfl

theorem socketSend_result (conn : Conn) (bytes : List Byte) :
    (socketSend conn bytes).2 = true ↔
      (conn.Write bytes).2.2 = false ∧ 1 ≤ (conn.Write bytes).2.1 := by
  unfold socketSend
  rcases conn.Write bytes with ⟨c, n, e⟩
  simp only []
  split_ifs with h1 h2 <;> simp [h1] <;> omega

theorem Write_sent (conn : Conn) (bytes : List Byte) :
    (conn.Write bytes).1.sent = conn.sent ++ [bytes] ∧
      (conn.Write bytes).1.closed = conn.closed ∧ (conn.Write bytes).1.reads = conn.reads := by
  unfold Conn.Write
  cases conn.writes <;> exact ⟨rfl, rfl, rfl⟩

theorem Read_sent (conn : Conn) (length : Nat) :
    (conn.Read length).1.sent = conn.sent ∧ (conn.Read length).1.closed = conn.closed ∧
      (conn.Read length).1.writes = conn.writes := by
  unfold Conn.Read
  by_cases h : length = 0
  · rw [if_pos h]; exact ⟨rfl, rfl, rfl⟩
  · rw [if_neg h]
    cases conn.reads <;> exact ⟨rfl, rfl, rfl⟩

theorem socketRead_conn (conn : Conn) (length : Int) :
    (socketRead conn length).1.sent = conn.sent ∧
      (socketRead conn length).1.closed = conn.closed ∧
      (socketRead conn length).1.writes = conn.writes := by
  unfold socketRead
  have h := Read_sent conn length.toNat
  by_cases hl : length < 0
  · rw [if_pos hl]; exact ⟨rfl, rfl, rfl⟩
  · rw [if_neg hl]
    generalize conn.Read length.toNat = r at h ⊢
    rcases r with ⟨c, buf, n, e⟩
    simp only [] at h ⊢
    split_ifs <;> exact h

theorem socketRead_one (conn : Conn) :
    socketRead conn 1 =
      ((conn.Read 1).1,
        if (conn.Read 1).2.2.2 = true then some (false, [])
        else if (conn.Read 1).2.2.1 ≠ 1 then some (false, (conn.Read 1).2.1)
        else some (true, (conn.Read 1).2.1)) := by
  unfold socketRead
  rw [if_neg (by decide)]
  show (match conn.Read 1 with
    | (conn, readbuf, read, err) =>
      if err = true then (conn, some (false, []))
      else if (read : Int) ≠ 1 then (conn, some (false, readbuf))
      else (conn, some (true, readbuf))) = _
  rcases conn.Read 1 with ⟨c, buf, n, e⟩
  simp only []
  split_ifs with h1 h2 h3 h3 <;> first | rfl | (exfalso; omega)

theorem sendProtocol_spec (conn : Conn) (protocol : Int) :
    sendProtocol conn protocol =
      if (conn.Write (binaryWriteInt8 [] protocol).1).2.2 = false ∧
          1 ≤ (conn.Write (binaryWriteInt8 [] protocol).1).2.1 then
        (((conn.Write (binaryWriteInt8 [] protocol).1).1.Read 1).1,
          some (decide (((conn.Write (binaryWriteInt8 [] protocol).1).1.Read 1).2.2.2 = false ∧
            ((conn.Write (binaryWriteInt8 [] protocol).1).1.Read 1).2.2.1 = 1)))
      else ((conn.Write (binaryWriteInt8 [] protocol).1).1, some false) := by
  have hc := socketSend_conn conn (binaryWriteInt8 [] protocol).1
  have hr := socketSend_result conn (binaryWriteInt8 [] protocol).1
  unfold sendProtocol
  simp only [binaryWriteInt8, Bool.false_eq_true, if_false] at hc hr ⊢
  generalize socketSend conn ([] ++ [Fin.ofNat (protocol % 256).toNat]) = sr at hc hr ⊢
  rcases sr with ⟨c, ok⟩
  simp only [] at hc hr
  subst hc
  cases ok with
  | false =>
    have hn : ¬ ((conn.Write ([] ++ [Fin.ofNat (protocol % 256).toNat])).2.2 = false ∧
        1 ≤ (conn.Write ([] ++ [Fin.ofNat (protocol % 256).toNat])).2.1) :=
      fun h => Bool.noConfusion (hr.2 h)
    simp only [if_neg hn]
  | true =>
    simp only [if_pos (hr.1 rfl), socketRead_one]
    split_ifs with h1 h2 <;> simp_all

theorem statusRequest_bytes :
    binaryWriteInt32 (binaryWriteInt8 [] 1).1 0 = ([1, 0, 0, 0, 0], false) := by
  decide

theorem sendStatusRequest_spec (conn : Conn) :
    sendStatusRequest conn =
      if (conn.Write [1, 0, 0, 0, 0]).2.2 = false ∧ 1 ≤ (conn.Write [1, 0, 0, 0, 0]).2.1 then
        (((conn.Write [1, 0, 0, 0, 0]).1.Read 1).1,
          if ((conn.Write [1, 0, 0, 0, 0]).1.Read 1).2.2.2 = false ∧
              ((conn.Write [1, 0, 0, 0, 0]).1.Read 1).2.2.1 = 1 then
            (match ((conn.Write [1, 0, 0, 0, 0]).1.Read 1).2.1.head? with
            | none => none
            | some b => some (true, int8OfByte b))
          else some (false, 0))
      else ((conn.Write [1, 0, 0, 0, 0]).1, some (false, 0)) := by
  have hc := socketSend_conn conn [1, 0, 0, 0, 0]
  have hr := socketSend_result conn [1, 0, 0, 0, 0]
  have hb8 : binaryWriteInt8 [] 1 = ([1], false) := by decide
  have hb32 : binaryWriteInt32 [1] 0 = ([1, 0, 0, 0, 0], false) := by decide
  unfold sendStatusRequest
  simp only [hb8, hb32, Bool.false_eq_true, if_false]
  generalize socketSend conn [1, 0, 0, 0, 0] = sr at hc hr ⊢
  rcases sr with ⟨c, ok⟩
  simp only [] at hc hr
  subst hc
  cases ok with
  | false =>
    have hn : ¬ ((conn.Write [1, 0, 0, 0, 0]).2.2 = false ∧
        1 ≤ (conn.Write [1, 0, 0, 0, 0]).2.1) :=
      fun h => Bool.noConfusion (hr.2 h)
    simp only [if_neg hn]
  | true =>
    simp only [if_pos (hr.1 rfl), socketRead_one]
    split_ifs with h1 h2 h3 h3 h3 <;> simp_all
    all_goals split <;> simp_all

theorem Write_cons (conn : Conn) (bytes : List Byte) (w : WriteOutcome) (ws : List WriteOutcome)
    (h : conn.writes = w :: ws) :
    conn.Write bytes =
      ({ conn with writes := ws, sent := conn.sent ++ [bytes] }, min w.n bytes.length, w.err) := by
  unfold Conn.Write
  rw [h]

theorem Read_cons (conn : Conn) (length : Nat) (r : ReadOutcome) (rs : List ReadOutcome)
    (hlen : 0 < length) (h : conn.reads = r :: rs) :
    conn.Read length =
      ({ conn with reads := rs },
        r.data.take length ++ List.replicate (length - (r.data.take length).length) 0,
        (r.data.take length).length, r.err) := by
  unfold Conn.Read
  rw [if_neg (by omega), h]

theorem getStatus_some (conn : Conn) :
    getStatus (some conn) =
      match sendProtocol conn 1 with
      | (conn, none) => (some conn, none)
      | (conn, some false) => (some conn, some (false, []))
      | (conn, some true) =>
        match sendStatusRequest conn with
        | (conn, none) => (some conn, none)
        | (conn, some (false, _)) => (some conn, some (false, []))
        | (conn, some (true, statuslen)) =>
          match readStatusCsv conn statuslen with
          | (conn, none) => (some conn, none)
          | (conn, some (suc, statuscsv)) => (some conn.Close, some (suc, statuscsv)) :=
  rfl

theorem getStatus_handshake_failed (conn : Conn) (h : (sendProtocol conn 1).2 = some false) :
    getStatus (some conn) = (some (sendProtocol conn 1).1, some (false, [])) := by
  rw [getStatus_some]
  generalize sendProtocol conn 1 = sp at h ⊢
  rcases sp with ⟨c, r⟩
  simp only [] at h
  subst h
  rfl

theorem getStatus_request_failed (conn : Conn) (n : Int)
    (h1 : (sendProtocol conn 1).2 = some true)
    (h2 : (sendStatusRequest (sendProtocol conn 1).1).2 = some (false, n)) :
    getStatus (some conn) =
      (some (sendStatusRequest (sendProtocol conn 1).1).1, some (false, [])) := by
  rw [getStatus_some]
  generalize sendProtocol conn 1 = sp at h1 h2 ⊢
  rcases sp with ⟨c, r⟩
  simp only [] at h1 h2
  subst h1
  simp only []
  generalize sendStatusRequest c = sq at h2 ⊢
  rcases sq with ⟨c2, r2⟩
  simp only [] at h2
  subst h2
  rfl

theorem getStatus_payload (conn : Conn) (len : Int)
    (h1 : (sendProtocol conn 1).2 = some true)
    (h2 : (sendStatusRequest (sendProtocol conn 1).1).2 = some (true, len)) :
    getStatus (some conn) =
      match socketRead (sendStatusRequest (sendProtocol conn 1).1).1 len with
      | (c, none) => (some c, none)
      | (c, some (suc, str)) => (some c.Close, some (suc, str)) := by
  rw [getStatus_some]
  generalize sendProtocol conn 1 = sp at h1 h2 ⊢
  rcases sp with ⟨c, r⟩
  simp only [] at h1 h2
  subst h1
  simp only []
  generalize sendStatusRequest c = sq at h2 ⊢
  rcases sq with ⟨c2, r2⟩
  simp only [] at h2
  subst h2
  simp only [readStatusCsv]
  generalize socketRead c2 len = sr
  rcases sr with ⟨c3, _ | ⟨suc, str⟩⟩
  · rfl
  · cases suc <;> rfl

theorem sendProtocol_conn (conn : Conn) (protocol : Int) :
    (sendProtocol conn protocol).1.sent = conn.sent ++ [(binaryWriteInt8 [] protocol).1] ∧
      (sendProtocol conn protocol).1.closed = conn.closed := by
  have hw := Write_sent conn (binaryWriteInt8 [] protocol).1
  have hr := Read_sent (conn.Write (binaryWriteInt8 [] protocol).1).1 1
  rw [sendProtocol_spec]
  split_ifs
  · exact ⟨hr.1.trans hw.1, hr.2.1.trans hw.2.1⟩
  · exact ⟨hw.1, hw.2.1⟩

theorem sendStatusRequest_conn (conn : Conn) :
    (sendStatusRequest conn).1.sent = conn.sent ++ [[1, 0, 0, 0, 0]] ∧
      (sendStatusRequest conn).1.closed = conn.closed := by
  have hw := Write_sent conn [1, 0, 0, 0, 0]
  have hr := Read_sent (conn.Write [1, 0, 0, 0, 0]).1 1
  rw [sendStatusRequest_spec]
  by_cases h : (conn.Write [1, 0, 0, 0, 0]).2.2 = false ∧ 1 ≤ (conn.Write [1, 0, 0, 0, 0]).2.1
  · rw [if_pos h]
    exact ⟨hr.1.trans hw.1, hr.2.1.trans hw.2.1⟩
  · rw [if_neg h]
    exact ⟨hw.1, hw.2.1⟩

theorem sendProtocol_never_faults (conn : Conn) (protocol : Int) :
    (sendProtocol conn protocol).2 = some true ∨ (sendProtocol conn protocol).2 = some false := by
  rw [sendProtocol_spec]
  split_ifs
  · simp only [Option.some.injEq]
    exact Bool.eq_false_or_eq_true _
  · exact Or.inr rfl

theorem getStatus_conn (conn : Conn) (h : (sendProtocol conn 1).2 = some true) :
    ∃ c, (getStatus (some conn)).1 = some c ∧
      c.sent = (sendStatusRequest (sendProtocol conn 1).1).1.sent := by
  rw [getStatus_some]
  generalize sendProtocol conn 1 = sp at h ⊢
  rcases sp with ⟨c, r⟩
  simp only [] at h
  subst h
  simp only []
  generalize sendStatusRequest c = sq
  rcases sq with ⟨c2, _ | ⟨suc, len⟩⟩
  · exact ⟨c2, rfl, rfl⟩
  · cases suc with
    | false => exact ⟨c2, rfl, rfl⟩
    | true =>
      simp only [readStatusCsv]
      have hs := (socketRead_conn c2 len).1
      generalize socketRead c2 len = sr at hs ⊢
      rcases sr with ⟨c3, _ | ⟨suc, str⟩⟩
      · exact ⟨c3, rfl, hs⟩
      · cases suc <;> exact ⟨c3.Close, rfl, hs⟩

/-- The path of `getStatus` through the payload read does close the connection. -/
theorem getStatus_closes_after_payload_read (conn : Conn) (len : Int) (hlen : 0 ≤ len)
    (h1 : (sendProtocol conn 1).2 = some true)
    (h2 : (sendStatusRequest (sendProtocol conn 1).1).2 = some (true, len)) :
    ∃ c r, getStatus (some conn) = (some c, some r) ∧ c.closed = true := by
  rw [getStatus_payload conn len h1 h2]
  unfold socketRead
  rw [if_neg (by omega)]
  generalize ((sendStatusRequest (sendProtocol conn 1).1).1.Read len.toNat) = r
  rcases r with ⟨c, buf, n, e⟩
  simp only []
  split_ifs <;> exact ⟨_, _, rfl, rfl⟩

/-! ## The claims about the protocol client -/

/-- C8: `sendProtocol` returns true exactly when the write reported no error and at least
one byte written and the acknowledgment read reported no error and exactly one byte
read; it never faults; the value of the acknowledgment byte does not enter the result;
and when it returns false, `getStatus` returns `(false, "")` having handed only the
handshake byte, and no status request, to `Write`. -/
theorem sendProtocol_result (conn : Conn) (protocol : Int) :
    ((sendProtocol conn protocol).2 = some true ↔
      ((conn.Write (binaryWriteInt8 [] protocol).1).2.2 = false ∧
        1 ≤ (conn.Write (binaryWriteInt8 [] protocol).1).2.1 ∧
        ((conn.Write (binaryWriteInt8 [] protocol).1).1.Read 1).2.2.2 = false ∧
        ((conn.Write (binaryWriteInt8 [] protocol).1).1.Read 1).2.2.1 = 1)) ∧
      ((sendProtocol conn protocol).2 = some true ∨
        (sendProtocol conn protocol).2 = some false) ∧
      (∀ (ws : List WriteOutcome) (rs : List ReadOutcome) (sent : List (List Byte))
          (closed : Bool) (b b' : Byte) (d : List Byte) (e : Bool),
        (sendProtocol ⟨ws, ⟨b :: d, e⟩ :: rs, sent, closed⟩ protocol).2 =
          (sendProtocol ⟨ws, ⟨b' :: d, e⟩ :: rs, sent, closed⟩ protocol).2) ∧
      ((sendProtocol conn 1).2 = some false →
        getStatus (some conn) = (some (sendProtocol conn 1).1, some (false, [])) ∧
          (sendProtocol conn 1).1.sent = conn.sent ++ [[1]]) := by
  refine ⟨?_, sendProtocol_never_faults conn protocol, ?_, ?_⟩
  · rw [sendProtocol_spec]
    split_ifs with h
    · simp only [Option.some.injEq, decide_eq_true_eq]
      exact ⟨fun h2 => ⟨h.1, h.2, h2.1, h2.2⟩, fun h2 => ⟨h2.2.2.1, h2.2.2.2⟩⟩
    · simp only [Option.some.injEq]
      exact ⟨fun h2 => Bool.noConfusion h2, fun h2 => absurd ⟨h2.1, h2.2.1⟩ h⟩
  · intro ws rs sent closed b b' d e
    rw [sendProtocol_spec, sendProtocol_spec]
    cases ws <;> simp [Conn.Write, Conn.Read]
    split_ifs <;> rfl
  · intro h
    exact ⟨getStatus_handshake_failed conn h, (sendProtocol_conn conn 1).1⟩

/-- C9: `sendProtocol` hands exactly one byte to `Write`, the two's complement of the
`int8` version (the byte 1 for version 1); `sendStatusRequest` hands exactly the five
bytes 1, 0, 0, 0, 0; and whatever the peer does, `getStatus` hands the handshake byte to
`Write` first and the five-byte request second, the request being omitted exactly when
the handshake fails. -/
theorem wire_layout (conn : Conn) (v : Int) (hv : -128 ≤ v ∧ v ≤ 127) :
    (∃ b : Byte, (sendProtocol conn v).1.sent = conn.sent ++ [[b]] ∧
        (b.val : Int) = if 0 ≤ v then v else v + 256) ∧
      (sendProtocol conn 1).1.sent = conn.sent ++ [[1]] ∧
      (sendStatusRequest conn).1.sent = conn.sent ++ [[1, 0, 0, 0, 0]] ∧
      (∃ c, (getStatus (some conn)).1 = some c ∧
        c.sent = conn.sent ++
          (if (sendProtocol conn 1).2 = some true then [[1], [1, 0, 0, 0, 0]] else [[1]])) := by
  refine ⟨⟨Fin.ofNat (v % 256).toNat, (sendProtocol_conn conn v).1, ?_⟩,
    (sendProtocol_conn conn 1).1, (sendStatusRequest_conn conn).1, ?_⟩
  · have h1 : (Fin.ofNat (v % 256).toNat : Byte).val = (v % 256).toNat % 256 := rfl
    rw [h1]
    split_ifs <;> omega
  · rcases sendProtocol_never_faults conn 1 with h | h
    · obtain ⟨c, hc, hsent⟩ := getStatus_conn conn h
      refine ⟨c, hc, ?_⟩
      rw [hsent, (sendStatusRequest_conn _).1, (sendProtocol_conn conn 1).1, if_pos h]
      simp [binaryWriteInt8]
      rfl
    · refine ⟨(sendProtocol conn 1).1, ?_, ?_⟩
      · rw [getStatus_handshake_failed conn h]
      · rw [(sendProtocol_conn conn 1).1, if_neg (by rw [h]; decide)]
        rfl

/-- C9 at a peer that completes the exchange and at the version -2, whose byte is 254. -/
theorem wire_layout_witness :
    (∃ b : Byte, (sendProtocol (Conn.fresh [⟨1, false⟩, ⟨5, false⟩]
          [⟨[7], false⟩, ⟨[0], false⟩]) (-2)).1.sent =
            (Conn.fresh [⟨1, false⟩, ⟨5, false⟩] [⟨[7], false⟩, ⟨[0], false⟩]).sent ++ [[b]] ∧
        (b.val : Int) = if 0 ≤ (-2 : Int) then -2 else -2 + 256) ∧
      (sendProtocol (Conn.fresh [⟨1, false⟩, ⟨5, false⟩] [⟨[7], false⟩, ⟨[0], false⟩]) 1).1.sent =
        (Conn.fresh [⟨1, false⟩, ⟨5, false⟩] [⟨[7], false⟩, ⟨[0], false⟩]).sent ++ [[1]] ∧
      (sendStatusRequest
          (Conn.fresh [⟨1, false⟩, ⟨5, false⟩] [⟨[7], false⟩, ⟨[0], false⟩])).1.sent =
        (Conn.fresh [⟨1, false⟩, ⟨5, false⟩] [⟨[7], false⟩, ⟨[0], false⟩]).sent ++
          [[1, 0, 0, 0, 0]] ∧
      (∃ c, (getStatus (some (Conn.fresh [⟨1, false⟩, ⟨5, false⟩]
          [⟨[7], false⟩, ⟨[0], false⟩]))).1 = some c ∧
        c.sent = (Conn.fresh [⟨1, false⟩, ⟨5, false⟩] [⟨[7], false⟩, ⟨[0], false⟩]).sent ++
          (if (sendProtocol (Conn.fresh [⟨1, false⟩, ⟨5, false⟩]
              [⟨[7], false⟩, ⟨[0], false⟩]) 1).2 = some true
            then [[1], [1, 0, 0, 0, 0]] else [[1]])) :=
  wire_layout (Conn.fresh [⟨1, false⟩, ⟨5, false⟩] [⟨[7], false⟩, ⟨[0], false⟩]) (-2)
    (by decide)

/-- C3, as the code behaves: when the handshake fails, or the handshake succeeds and the
status request fails, `getStatus` returns `(false, "")` and leaves the connection it
opened unclosed. -/
theorem getStatus_leaves_connection_open (conn : Conn) (hopen : conn.closed = false)
    (hfail : (sendProtocol conn 1).2 = some false ∨
      ((sendProtocol conn 1).2 = some true ∧
        ∃ n, (sendStatusRequest (sendProtocol conn 1).1).2 = some (false, n))) :
    ∃ c, getStatus (some conn) = (some c, some (false, [])) ∧ c.closed = false := by
  rcases hfail with h | ⟨h1, n, h2⟩
  · exact ⟨_, getStatus_handshake_failed conn h, (sendProtocol_conn conn 1).2.trans hopen⟩
  · exact ⟨_, getStatus_request_failed conn n h1 h2,
      (sendStatusRequest_conn _).2.trans ((sendProtocol_conn conn 1).2.trans hopen)⟩

/-- C3 at a peer that accepts the handshake byte and then ends the stream. -/
theorem getStatus_leaves_connection_open_witness :
    ∃ c, getStatus (some (Conn.fresh [⟨1, false⟩] [])) = (some c, some (false, [])) ∧
      c.closed = false :=
  getStatus_leaves_connection_open (Conn.fresh [⟨1, false⟩] []) rfl (Or.inl (by decide))

/-- C6, as the code behaves: when the handshake and the request write succeed and the peer
answers the status request with the byte `b`, `sendStatusRequest` returns `int8(b)`, a
value in -128..127.  For `b` below 128 that is `b` and the payload read does not fault.
For `b` of 128 or more it is the negative length `b - 256`, which `getStatus` passes on
to the payload read, where `make([]byte, length)` faults: `getStatus` does not return
and `Collect` ends in a runtime fault before sending any metric. -/
theorem getStatus_length_byte (conn c₁ : Conn) (w : WriteOutcome)
    (ws : List WriteOutcome) (b : Byte) (more : List Byte) (rs : List ReadOutcome)
    (h1 : sendProtocol conn 1 = (c₁, some true))
    (hw : c₁.writes = w :: ws) (hwe : w.err = false) (hwn : 0 < w.n)
    (hr : c₁.reads = ⟨b :: more, false⟩ :: rs) :
    (sendStatusRequest c₁).2 = some (true, int8OfByte b) ∧
      (-128 ≤ int8OfByte b ∧ int8OfByte b ≤ 127) ∧
      (b.val < 128 → int8OfByte b = (b.val : Int) ∧ (getStatus (some conn)).2 ≠ none) ∧
      (128 ≤ b.val → int8OfByte b = (b.val : Int) - 256 ∧ int8OfByte b < 0 ∧
        (getStatus (some conn)).2 = none ∧
        ∀ intSize, Exporter.Collect intSize (some conn) = { sent := [], faulted := true }) := by
  have hW := Write_cons c₁ [1, 0, 0, 0, 0] w ws hw
  have hR := Read_cons (c₁.Write [1, 0, 0, 0, 0]).1 1 ⟨b :: more, false⟩ rs (by decide)
    (by rw [(Write_sent c₁ _).2.2, hr])
  have hreq : (sendStatusRequest c₁).2 = some (true, int8OfByte b) := by
    rw [sendStatusRequest_spec, hR, hW]
    simp only [hwe, List.take_succ_cons, List.take_zero, List.length_cons, List.length_nil]
    have hmin : 1 ≤ min w.n (0 + 1 + 1 + 1 + 1 + 1) := by omega
    simp only [hmin, and_self, if_true, Nat.zero_add, Nat.sub_self, List.replicate_zero,
      List.append_nil, List.head?_cons]
  have h1' : (sendProtocol conn 1).2 = some true := by rw [h1]
  have h1c : (sendProtocol conn 1).1 = c₁ := by rw [h1]
  have hpay := getStatus_payload conn _ h1' (by rw [h1c]; exact hreq)
  have hb := b.isLt
  refine ⟨hreq, ?_, ?_, ?_⟩
  · unfold int8OfByte
    split_ifs <;> omega
  · intro hlt
    have hv : int8OfByte b = (b.val : Int) := by
      unfold int8OfByte
      rw [if_pos hlt]
    refine ⟨hv, ?_⟩
    rw [hpay]
    unfold socketRead
    rw [if_neg (by omega)]
    generalize ((sendStatusRequest (sendProtocol conn 1).1).1.Read (int8OfByte b).toNat) = r
    rcases r with ⟨c, buf, n, e⟩
    simp only []
    split_ifs <;> exact Option.noConfusion
  · intro hge
    have hv : int8OfByte b = (b.val : Int) - 256 := by
      unfold int8OfByte
      rw [if_neg (by omega)]
    have hneg : int8OfByte b < 0 := by omega
    have hget : (getStatus (some conn)).2 = none := by
      rw [hpay]
      unfold socketRead
      rw [if_pos hneg]
    refine ⟨hv, hneg, hget, ?_⟩
    intro intSize
    unfold Exporter.Collect
    rw [hget]

/-- C6 at the length byte 128. -/
theorem getStatus_length_byte_witness :
    (getStatus (servingPeer 128 [])).2 = none ∧
      Exporter.Collect 64 (servingPeer 128 []) = { sent := [], faulted := true } :=
  have h := (getStatus_length_byte
    (Conn.fresh [⟨1, false⟩, ⟨5, false⟩] [⟨[7], false⟩, ⟨[128], false⟩, ⟨[], false⟩])
    ⟨[⟨5, false⟩], [⟨[128], false⟩, ⟨[], false⟩], [[1]], false⟩
    ⟨5, false⟩ [] 128 [] [⟨[], false⟩] (by decide) rfl rfl (by decide) rfl).2.2.2 (by decide)
  ⟨h.2.2.1, h.2.2.2 64⟩

/-- C7 as stated fails: with the declared length 3 and a payload read that delivers the
single byte `a` without error, `getStatus` reports failure but the string it returns is
the whole 3-byte buffer, `a` followed by two zero bytes, not the one byte read. -/
theorem getStatus_short_read_returns_buffer :
    (getStatus (servingPeer 3 (ascii "a"))).2 = some (false, [97, 0, 0]) ∧
      (getStatus (servingPeer 3 (ascii "a"))).2 ≠ some (false, ascii "a") := by
  decide

/-- C7, amended: for every declared length `N` in 1..127 and every payload read that
delivers `m < N` bytes without an I/O error, `getStatus` reports failure and the string
it returns is the `N`-byte read buffer: the `m` bytes read followed by `N - m` zero
bytes. -/
theorem getStatus_short_payload_read (conn c₁ c₂ : Conn) (N : Nat) (data : List Byte)
    (rs : List ReadOutcome)
    (hN : 1 ≤ N ∧ N ≤ 127)
    (h1 : sendProtocol conn 1 = (c₁, some true))
    (h2 : sendStatusRequest c₁ = (c₂, some (true, (N : Int))))
    (hr : c₂.reads = ⟨data, false⟩ :: rs)
    (hm : data.length < N) :
    (getStatus (some conn)).2 =
      some (false, data ++ List.replicate (N - data.length) 0) := by
  have h1' : (sendProtocol conn 1).2 = some true := by rw [h1]
  have h1c : (sendProtocol conn 1).1 = c₁ := by rw [h1]
  have h2' : (sendStatusRequest (sendProtocol conn 1).1).2 = some (true, (N : Int)) := by
    rw [h1c, h2]
  rw [getStatus_payload conn _ h1' h2', h1c, h2]
  unfold socketRead
  rw [if_neg (by omega), Int.toNat_ofNat, Read_cons c₂ N ⟨data, false⟩ rs (by omega) hr]
  have htake : data.take N = data := List.take_of_length_le (by omega)
  simp only [htake]
  rw [if_neg (by decide), if_pos (by omega)]

/-- C7 (amended) at the declared length 3 and the one delivered byte `a`. -/
theorem getStatus_short_payload_read_witness :
    (getStatus (servingPeer 3 (ascii "a"))).2 =
      some (false, ascii "a" ++ List.replicate (3 - (ascii "a").length) 0) :=
  getStatus_short_payload_read
    (Conn.fresh [⟨1, false⟩, ⟨5, false⟩] [⟨[7], false⟩, ⟨[3], false⟩, ⟨ascii "a", false⟩])
    ⟨[⟨5, false⟩], [⟨[3], false⟩, ⟨ascii "a", false⟩], [[1]], false⟩
    ⟨[], [⟨ascii "a", false⟩], [[1], [1, 0, 0, 0, 0]], false⟩
    3 (ascii "a") [] (by decide) (by decide) (by decide) rfl (by decide)

end FafGeard

